import Mathlib

/-!
Verification development for the `makemeamixtape` content pipeline
(`scripts/import-artofthemix.js` and the JSON re-normalizer script).

Strings are embedded as `List Char`.  Each JavaScript regular expression
used by the source is embedded as a dedicated deterministic matcher that
mirrors the backtracking behaviour of that concrete pattern (leftmost
match, greedy/lazy preference as written).  Scanning functions that jump
forward by a matched amount take a fuel argument; callers supply
`length + 1` fuel, which is always sufficient since every step consumes
at least one character.
-/

set_option maxHeartbeats 1000000

namespace Mixtape

/-- JavaScript `\s` / `String.prototype.trim` whitespace class. -/
def jsWs (c : Char) : Bool :=
  c = ' ' || c = '\t' || c = '\n' || c = '\r' ||
  c.val = 11 || c.val = 12 || c.val = 0xA0 || c.val = 0x1680 ||
  (0x2000 ≤ c.val && c.val ≤ 0x200A) ||
  c.val = 0x2028 || c.val = 0x2029 || c.val = 0x202F ||
  c.val = 0x205F || c.val = 0x3000 || c.val = 0xFEFF

/-- JavaScript `\d`: ASCII digits. -/
def isDigit (c : Char) : Bool :=
  '0' ≤ c && c ≤ '9'

/-- ASCII letter (the `/i`-closed `[a-z]` class). -/
def isAsciiLetter (c : Char) : Bool :=
  ('a' ≤ c && c ≤ 'z') || ('A' ≤ c && c ≤ 'Z')

/-- The character class `[a-z0-9]` of `slugify`. -/
def isSlugChar (c : Char) : Bool :=
  ('a' ≤ c && c ≤ 'z') || ('0' ≤ c && c ≤ '9')

/-- Case-folding used for `/i` regex matching and `.toLowerCase()` on the
ASCII data this pipeline manipulates. -/
def jsToLower (c : Char) : Char :=
  Char.toLower c

/-- `String.prototype.trim` from the left. -/
def trimLeft (s : List Char) : List Char :=
  s.dropWhile jsWs

/-- `String.prototype.trim` from the right. -/
def trimRight (s : List Char) : List Char :=
  (s.reverse.dropWhile jsWs).reverse

/-- `String.prototype.trim`. -/
def jsTrim (s : List Char) : List Char :=
  trimLeft (trimRight s)

/-- Skip a `\s*`. -/
def skipWs (s : List Char) : List Char :=
  s.dropWhile jsWs

/-- Case-insensitive literal match: if `s` starts with `pat` up to ASCII
case, return the remainder. -/
def stripCI : List Char → List Char → Option (List Char)
  | [], s => some s
  | _ :: _, [] => none
  | p :: ps, c :: cs => if jsToLower c = jsToLower p then stripCI ps cs else none

/-- `[^>]*>`: drop up to and including the first `>`.  `none` if there is
no `>`. -/
def dropToGt : List Char → Option (List Char)
  | [] => none
  | c :: cs => if c = '>' then some cs else dropToGt cs

/-- Lazy `([\s\S]*?)lit` where nothing follows the literal: split at the
first (case-insensitive) occurrence of `pat`, returning the text before
it and the text after it. -/
def splitAtFirstCI (pat : List Char) : List Char → Option (List Char × List Char)
  | [] => (stripCI pat []).map (fun r => ([], r))
  | c :: cs =>
    match stripCI pat (c :: cs) with
    | some rest => some ([], rest)
    | none => (splitAtFirstCI pat cs).map (fun pr => (c :: pr.1, pr.2))

/-- One track of a mix: `{ title, artist }`. -/
structure Track where
  title : List Char
  artist : List Char
deriving DecidableEq, Repr

/-! ## `slugify` (import-artofthemix.js, lines 28-35) -/

/-- `.replace(/[^a-z0-9]+/g, '-')`: every maximal run of characters
outside `[a-z0-9]` becomes a single hyphen. -/
def replaceRunsF : Nat → List Char → List Char
  | 0, s => s
  | _, [] => []
  | f+1, c :: cs =>
    if isSlugChar c then c :: replaceRunsF f cs
    else '-' :: replaceRunsF f (cs.dropWhile (fun d => !isSlugChar d))

/-- `-+$` half of `.replace(/^-+|-+$/g, '')`. -/
def dropTrailingHyphens (s : List Char) : List Char :=
  (s.reverse.dropWhile (fun c => c = '-')).reverse

/-- `.replace(/^-+|-+$/g, '')`. -/
def trimHyphens (s : List Char) : List Char :=
  dropTrailingHyphens (s.dropWhile (fun c => c = '-'))

/-- The slug before the final truncation: lower-case, remove apostrophes
(the `/['']/g` class holds the ASCII apostrophe twice), hyphenate
non-alphanumeric runs, trim edge hyphens. -/
def preSlug (title : List Char) : List Char :=
  let s1 := title.map jsToLower
  let s2 := s1.filter (fun c => c ≠ '\'')
  let s3 := replaceRunsF s2.length s2
  trimHyphens s3

/-- `slugify` from the importer: `preSlug` followed by
`substring(0, 80)` (all characters are ASCII at that point, so UTF-16
code units coincide with characters). -/
def slugify (title : List Char) : List Char :=
  (preSlug title).take 80

/-! ## `parseDate` (lines 38-41) -/

/-- `String.prototype.split('/')`. -/
def splitSlash : List Char → List (List Char)
  | [] => [[]]
  | c :: cs =>
    if c = '/' then [] :: splitSlash cs
    else
      match splitSlash cs with
      | h :: t => (c :: h) :: t
      | [] => [[c]]

/-- `String.prototype.padStart(2, '0')`. -/
def padStart2 (s : List Char) : List Char :=
  List.replicate (2 - s.length) '0' ++ s

/-- `parseDate`: destructure the first three `/`-separated fields as
month, day, year and emit `YYYY-MM-DD` with zero-padded month and day.
The `_ => []` branch is unreachable at the call site (the date regex
guarantees three fields); JavaScript would throw there. -/
def parseDate (dateStr : List Char) : List Char :=
  match splitSlash dateStr with
  | month :: day :: year :: _ =>
    year ++ ('-' :: padStart2 month) ++ ('-' :: padStart2 day)
  | _ => []

/-! ## `extractMixIds` (lines 53-63): the `/\/mix\/(\d+)/g` exec loop -/

/-- Match `\/mix\/(\d+)` anchored at the head of `s`: the captured group
is the maximal digit run; also return the text after the match. -/
def tryMixIdAt (s : List Char) : Option (List Char × List Char) :=
  if s.take 5 = "/mix/".toList then
    let ds := (s.drop 5).takeWhile isDigit
    if ds.isEmpty then none else some (ds, (s.drop 5).dropWhile isDigit)
  else none

/-- The `regex.exec` loop of `extractMixIds` with its first-seen
deduplication (`mixIds.includes` guard before `push`). -/
def scanMixIdsF : Nat → List Char → List (List Char) → List (List Char)
  | 0, _, acc => acc
  | _, [], acc => acc
  | f+1, c :: cs, acc =>
    match tryMixIdAt (c :: cs) with
    | some (mixId, rest) =>
      scanMixIdsF f rest (if mixId ∈ acc then acc else acc ++ [mixId])
    | none => scanMixIdsF f cs acc

def extractMixIds (html : List Char) : List (List Char) :=
  scanMixIdsF (html.length + 1) html []

/-- All pattern occurrences in match order, without deduplication
(instrumental definition used to state the first-seen property). -/
def scanRawIdsF : Nat → List Char → List (List Char)
  | 0, _ => []
  | _, [] => []
  | f+1, c :: cs =>
    match tryMixIdAt (c :: cs) with
    | some (mixId, rest) => mixId :: scanRawIdsF f rest
    | none => scanRawIdsF f cs

def rawMixIds (html : List Char) : List (List Char) :=
  scanRawIdsF (html.length + 1) html

/-- Following the spec's words for the ID extractor: "set of distinct
identifiers, order = first-seen order in the text". -/
def specFirstSeenDedup (ids : List (List Char)) : List (List Char) :=
  ids.foldl (fun acc x => if x ∈ acc then acc else acc ++ [x]) []

/-! ## HTML normalization and tag stripping -/

/-- `.replace(/>\s+</g, '><')`. -/
def collapseTagGapsF : Nat → List Char → List Char
  | 0, s => s
  | _, [] => []
  | f+1, c :: cs =>
    if c = '>' then
      match cs with
      | [] => ['>']
      | d :: _ =>
        if jsWs d then
          match skipWs cs with
          | '<' :: rest => '>' :: collapseTagGapsF f ('<' :: rest)
          | _ => '>' :: collapseTagGapsF f cs
        else '>' :: collapseTagGapsF f cs
    else c :: collapseTagGapsF f cs

/-- `html.replace(/>\s+</g, '><').replace(/\n/g, ' ')`. -/
def normalizeHtml (html : List Char) : List Char :=
  (collapseTagGapsF (html.length + 1) html).map (fun c => if c = '\n' then ' ' else c)

/-- `.replace(/<[^>]+>/g, '')`: remove tag-like spans (a `<`, at least one
non-`>` character, then the first `>`). -/
def stripTagsF : Nat → List Char → List Char
  | 0, s => s
  | _, [] => []
  | f+1, c :: cs =>
    if c = '<' then
      match cs with
      | [] => ['<']
      | d :: _ =>
        if d = '>' then '<' :: stripTagsF f cs
        else
          match dropToGt cs with
          | some rest => stripTagsF f rest
          | none => '<' :: stripTagsF f cs
    else c :: stripTagsF f cs

def stripTags (s : List Char) : List Char :=
  stripTagsF (s.length + 1) s

/-! ## `extractTracksFromHtml` (lines 141-184) -/

/-- Backtracking of the lazy first cell of
`/<tr[^>]*>\s*<td[^>]*>([\s\S]*?)<\/td>\s*<td[^>]*>([\s\S]*?)<\/td>/gi`:
the first group ends at the first `</td>` whose continuation
(`\s*<td[^>]*>` and a further `</td>`) succeeds. -/
def cell1Scan : List Char → List Char → Option (List Char × List Char × List Char)
  | _, [] => none
  | accRev, c :: cs =>
    match (do
      let r1 ← stripCI "</td>".toList (c :: cs)
      let r2 ← stripCI "<td".toList (skipWs r1)
      let r3 ← dropToGt r2
      let (g2, tail) ← splitAtFirstCI "</td>".toList r3
      pure (accRev.reverse, g2, tail) : Option (List Char × List Char × List Char)) with
    | some res => some res
    | none => cell1Scan (c :: accRev) cs

/-- The row regex anchored at the head of `s`; on success returns both
cell captures and the text after the whole match. -/
def tryRowAt (s : List Char) : Option (List Char × List Char × List Char) := do
  let s1 ← stripCI "<tr".toList s
  let s2 ← dropToGt s1
  let s3 ← stripCI "<td".toList (skipWs s2)
  let s4 ← dropToGt s3
  cell1Scan [] s4

/-- The `rowRegex.exec` loop: cell cleanup, header-row skip, empty skip,
lower-cased push. -/
def scanRowsF : Nat → List Char → List Track
  | 0, _ => []
  | _, [] => []
  | f+1, c :: cs =>
    match tryRowAt (c :: cs) with
    | some (g1, g2, rest) =>
      let artist := jsTrim (stripTags g1)
      let song := jsTrim (stripTags g2)
      if artist.map jsToLower = "artist".toList ∨ song.map jsToLower = "song".toList then
        scanRowsF f rest
      else if artist.isEmpty ∨ song.isEmpty then
        scanRowsF f rest
      else
        { title := song.map jsToLower, artist := artist.map jsToLower } :: scanRowsF f rest
    | none => scanRowsF f cs

/-- `/<li[^>]*>([\s\S]*?)<\/li>/gi` anchored at the head of `s`. -/
def tryLiAt (s : List Char) : Option (List Char × List Char) := do
  let s1 ← stripCI "<li".toList s
  let s2 ← dropToGt s1
  splitAtFirstCI "</li>".toList s2

/-- The dash-separator class `[-–—]` of the fallback item pattern. -/
def isDashSep (c : Char) : Bool :=
  c = '-' || c = '–' || c = '—'

/-- Tail of `/^(.+?)\s*[-–—]\s*[""]?(.+?)[""]?$/` after the separator
(the quote class holds the ASCII double quote twice): skip whitespace,
optionally consume a leading quote when at least one character remains,
then the lazy second group surrenders a final quote when at least two
characters remain.  `none` when only whitespace follows the separator
(the regex then backtracks past this separator). -/
def dashGroup2 (post : List Char) : Option (List Char) :=
  match skipWs post with
  | [] => none
  | c :: cs =>
    let s := if c = '"' ∧ cs ≠ [] then cs else c :: cs
    some (if s.length ≥ 2 ∧ s.getLast? = some '"' then s.dropLast else s)

/-- Scan `rest` for the first separator whose right side is usable;
`accRev` holds the reversed characters already committed to the lazy
first group. -/
def parseDashGo : List Char → List Char → Option Track
  | _, [] => none
  | accRev, c :: cs =>
    if isDashSep c then
      match dashGroup2 cs with
      | some g2 =>
        some { title := (jsTrim g2).map jsToLower,
               artist := (jsTrim (trimRight accRev.reverse)).map jsToLower }
      | none => parseDashGo (c :: accRev) cs
    else parseDashGo (c :: accRev) cs

/-- `item.match(/^(.+?)\s*[-–—]\s*[""]?(.+?)[""]?$/)` plus the `push`
fields: the first group needs at least one character before the
separator. -/
def parseDashItem : List Char → Option Track
  | [] => none
  | c :: cs => parseDashGo [c] cs

/-- The fallback `listItemRegex.exec` loop. -/
def scanLisF : Nat → List Char → List Track
  | 0, _ => []
  | _, [] => []
  | f+1, c :: cs =>
    match tryLiAt (c :: cs) with
    | some (content, rest) =>
      match parseDashItem (jsTrim (stripTags content)) with
      | some t => t :: scanLisF f rest
      | none => scanLisF f rest
    | none => scanLisF f cs

/-- `extractTracksFromHtml`: primary two-column strategy, list-item
fallback only when the primary yields nothing. -/
def extractTracksFromHtml (html : List Char) : List Track :=
  let normalizedHtml := normalizeHtml html
  let tableTracks := scanRowsF (normalizedHtml.length + 1) normalizedHtml
  if tableTracks.isEmpty then scanLisF (normalizedHtml.length + 1) normalizedHtml
  else tableTracks

/-! ## extractMixData field matchers (lines 66-111) -/

/-- `/<h1[^>]*>([^<]+)<\/h1>/i` anchored at the head of `s`. -/
def tryH1At (s : List Char) : Option (List Char) := do
  let s1 ← stripCI "<h1".toList s
  let s2 ← dropToGt s1
  let run := s2.takeWhile (fun c => c ≠ '<')
  if run.isEmpty then none
  else
    match stripCI "</h1>".toList (s2.dropWhile (fun c => c ≠ '<')) with
    | some _ => some run
    | none => none

def scanH1 : List Char → Option (List Char)
  | [] => none
  | c :: cs =>
    match tryH1At (c :: cs) with
    | some r => some r
    | none => scanH1 cs

/-- `/<title>([^<|]+)/i` anchored at the head of `s`. -/
def tryTitleTagAt (s : List Char) : Option (List Char) := do
  let s1 ← stripCI "<title>".toList s
  let run := s1.takeWhile (fun c => c ≠ '<' && c ≠ '|')
  if run.isEmpty then none else some run

def scanTitleTag : List Char → Option (List Char)
  | [] => none
  | c :: cs =>
    match tryTitleTagAt (c :: cs) with
    | some r => some r
    | none => scanTitleTag cs

/-- `/class="?mix-title"?[^>]*>([^<]+)</i` anchored at the head of `s`. -/
def tryMixTitleAt (s : List Char) : Option (List Char) := do
  let s1 ← stripCI "class=".toList s
  let s2 := match s1 with
    | '"' :: r => r
    | _ => s1
  let s3 ← stripCI "mix-title".toList s2
  let s4 := match s3 with
    | '"' :: r => r
    | _ => s3
  let s5 ← dropToGt s4
  let run := s5.takeWhile (fun c => c ≠ '<')
  if run.isEmpty then none
  else
    match s5.dropWhile (fun c => c ≠ '<') with
    | '<' :: _ => some run
    | _ => none

def scanMixTitle : List Char → Option (List Char)
  | [] => none
  | c :: cs =>
    match tryMixTitleAt (c :: cs) with
    | some r => some r
    | none => scanMixTitle cs

/-- The `titleMatch` `||` chain over the normalized HTML. -/
def titleSearch (normalizedHtml : List Char) : Option (List Char) :=
  match scanH1 normalizedHtml with
  | some r => some r
  | none =>
    match scanTitleTag normalizedHtml with
    | some r => some r
    | none => scanMixTitle normalizedHtml

/-- `.replace(/\s+/g, ' ')`. -/
def collapseWsF : Nat → List Char → List Char
  | 0, s => s
  | _, [] => []
  | f+1, c :: cs =>
    if jsWs c then ' ' :: collapseWsF f (cs.dropWhile jsWs)
    else c :: collapseWsF f cs

def collapseWs (s : List Char) : List Char :=
  collapseWsF (s.length + 1) s

/-- `.replace(/\s+by\s+natalyesaurus\.?$/i, '')` applied to a trimmed,
whitespace-collapsed string, where `\s+` can only be a single space. -/
def stripByAuthor (s : List Char) : List Char :=
  let low := s.map jsToLower
  if List.isSuffixOf " by natalyesaurus.".toList low then s.take (s.length - 18)
  else if List.isSuffixOf " by natalyesaurus".toList low then s.take (s.length - 17)
  else s

/-- `titleMatch[1].trim().replace(/\s+/g, ' ').replace(/\s+by\s+natalyesaurus\.?$/i, '')`. -/
def cleanTitle (raw : List Char) : List Char :=
  stripByAuthor (collapseWs (jsTrim raw))

/-- The three captured groups of `(\d{1,2})\/(\d{1,2})\/(\d{4})`; the
optional second characters record whether one or two digits matched. -/
structure DateParts where
  m1 : Char
  m2 : Option Char
  d1 : Char
  d2 : Option Char
  y1 : Char
  y2 : Char
  y3 : Char
  y4 : Char
deriving DecidableEq, Repr

/-- Greedy `\d{1,2}` followed by `\/`: prefer two digits, fall back to
one. -/
def parse12 : List Char → Option ((Char × Option Char) × List Char)
  | [] => none
  | a :: rest =>
    if isDigit a then
      match rest with
      | [] => none
      | b :: rest2 =>
        if isDigit b then
          match rest2 with
          | '/' :: rest3 => some ((a, some b), rest3)
          | _ => none
        else if b = '/' then some ((a, none), rest2)
        else none
    else none

/-- `\d{4}` with nothing after it in the pattern. -/
def parse4 : List Char → Option (Char × Char × Char × Char)
  | a :: b :: c :: d :: _ =>
    if isDigit a ∧ isDigit b ∧ isDigit c ∧ isDigit d then some (a, b, c, d) else none
  | _ => none

def parseMDY (s : List Char) : Option DateParts := do
  let (m, s1) ← parse12 s
  let (d, s2) ← parse12 s1
  let y ← parse4 s2
  pure ⟨m.1, m.2, d.1, d.2, y.1, y.2.1, y.2.2.1, y.2.2.2⟩

/-- `/Submit\s*Date[:\s]*(\d{1,2}\/\d{1,2}\/\d{4})/i` anchored at the
head of `s`. -/
def trySubmitDateAt (s : List Char) : Option DateParts := do
  let s1 ← stripCI "submit".toList s
  let s2 ← stripCI "date".toList (skipWs s1)
  parseMDY (s2.dropWhile (fun c => c = ':' || jsWs c))

/-- `/Submitted[:\s]*(\d{1,2}\/\d{1,2}\/\d{4})/i` anchored at the head
of `s`. -/
def trySubmittedAt (s : List Char) : Option DateParts := do
  let s1 ← stripCI "submitted".toList s
  parseMDY (s1.dropWhile (fun c => c = ':' || jsWs c))

def scanSubmitDate : List Char → Option DateParts
  | [] => none
  | c :: cs =>
    match trySubmitDateAt (c :: cs) with
    | some r => some r
    | none => scanSubmitDate cs

def scanSubmitted : List Char → Option DateParts
  | [] => none
  | c :: cs =>
    match trySubmittedAt (c :: cs) with
    | some r => some r
    | none => scanSubmitted cs

/-- `html.match(dateRegex1) || html.match(dateRegex2)`. -/
def dateSearch (html : List Char) : Option DateParts :=
  match scanSubmitDate html with
  | some r => some r
  | none => scanSubmitted html

def optToList : Option Char → List Char
  | none => []
  | some c => [c]

/-- The text of the matched date capture, `M/D/YYYY`. -/
def mdyText (dp : DateParts) : List Char :=
  (dp.m1 :: optToList dp.m2) ++ ('/' :: dp.d1 :: optToList dp.d2) ++
    ('/' :: [dp.y1, dp.y2, dp.y3, dp.y4])

/-- `/Format[:\s]*(CD|Cassette|Playlist)/i` anchored at the head of `s`;
the captured alternative is returned already lower-cased, as the caller
immediately lower-cases it. -/
def tryFormatAt (s : List Char) : Option (List Char) := do
  let s1 ← stripCI "format".toList s
  let s2 := s1.dropWhile (fun c => c = ':' || jsWs c)
  match stripCI "cd".toList s2 with
  | some _ => some ((s2.take 2).map jsToLower)
  | none =>
    match stripCI "cassette".toList s2 with
    | some _ => some ((s2.take 8).map jsToLower)
    | none =>
      match stripCI "playlist".toList s2 with
      | some _ => some ((s2.take 8).map jsToLower)
      | none => none

def scanFormat : List Char → Option (List Char)
  | [] => none
  | c :: cs =>
    match tryFormatAt (c :: cs) with
    | some r => some r
    | none => scanFormat cs

/-- Lazy `[a-z\s.]+?` (under `/i`) followed by the terminator
`(?:\.|<|$)`, which is preferred over extending the group. -/
def lazyClassCapture : List Char → Option (List Char)
  | [] => none
  | c :: cs =>
    if isAsciiLetter c || jsWs c || c = '.' then
      match cs with
      | [] => some [c]
      | d :: _ =>
        if d = '.' || d = '<' then some [c]
        else (lazyClassCapture cs).map (fun t => c :: t)
    else none

/-- `([a-z][a-z\s.]+?)` under `/i`: a letter then the lazy class run. -/
def captureDedName : List Char → Option (List Char)
  | [] => none
  | c :: r2 =>
    if isAsciiLetter c then (lazyClassCapture r2).map (fun t => c :: t) else none

/-- `/;\s*for\s+([a-z][a-z\s.]+?)(?:\.|<|$)/i` anchored at the head of
`s`. -/
def tryDed1At (s : List Char) : Option (List Char) :=
  match s with
  | ';' :: r =>
    match stripCI "for".toList (skipWs r) with
    | some r2 =>
      match r2 with
      | c :: _ => if jsWs c then captureDedName (skipWs r2) else none
      | [] => none
    | none => none
  | _ => none

/-- `\s+(?:to\s+)?([a-z][a-z\s.]+?)(?:\.|<|$)` with the optional
`to\s+` tried greedily first. -/
def dedCont (r : List Char) : Option (List Char) :=
  match r with
  | c :: _ =>
    if jsWs c then
      let r2 := skipWs r
      let viaTo : Option (List Char) := do
        let a ← stripCI "to".toList r2
        match a with
        | d :: _ => if jsWs d then captureDedName (skipWs a) else none
        | [] => none
      match viaTo with
      | some res => some res
      | none => captureDedName r2
    else none
  | [] => none

/-- `/dedicated?\s+(?:to\s+)?([a-z][a-z\s.]+?)(?:\.|<|$)/i` anchored at
the head of `s`, with the optional final `d` tried greedily first. -/
def tryDed2At (s : List Char) : Option (List Char) :=
  match stripCI "dedicate".toList s with
  | none => none
  | some s1 =>
    match s1 with
    | d :: r =>
      if jsToLower d = 'd' then
        match dedCont r with
        | some res => some res
        | none => dedCont s1
      else dedCont s1
    | [] => dedCont s1

def scanDed1 : List Char → Option (List Char)
  | [] => none
  | c :: cs =>
    match tryDed1At (c :: cs) with
    | some r => some r
    | none => scanDed1 cs

def scanDed2 : List Char → Option (List Char)
  | [] => none
  | c :: cs =>
    match tryDed2At (c :: cs) with
    | some r => some r
    | none => scanDed2 cs

/-- `html.match(dedicationRegex1) || html.match(dedicationRegex2)`. -/
def dedicationSearch (html : List Char) : Option (List Char) :=
  match scanDed1 html with
  | some r => some r
  | none => scanDed2 html

/-- `/Side\s*A/i` (resp. `B`) anchored at the head of `s`. -/
def sideMarkAt (letter : Char) (s : List Char) : Bool :=
  match stripCI "side".toList s with
  | some r =>
    match skipWs r with
    | c :: _ => jsToLower c = letter
    | [] => false
  | none => false

/-- `/Side\s*A/i.test(html)` (resp. `B`). -/
def testSideMark (letter : Char) : List Char → Bool
  | [] => false
  | c :: cs => sideMarkAt letter (c :: cs) || testSideMark letter cs

/-- `html.search(/Side\s*B/i)`: index of the first match. -/
def searchSideB : List Char → Option Nat
  | [] => none
  | c :: cs =>
    if sideMarkAt 'b' (c :: cs) then some 0 else (searchSideB cs).map (· + 1)

/-! ## `extractMixData` (lines 66-138) -/

structure MixData where
  id : List Char
  title : List Char
  date : List Char
  format : List Char
  notes : List Char
  tracks : List Track
  sideA : Option (List Track)
  sideB : Option (List Track)
deriving DecidableEq, Repr

/-- `extractMixData`.  In the cassette branch `hasSideB` guarantees
`searchSideB` is `some`, so the `getD 0` default is never used (for
`search` returning `-1`, JavaScript `substring` would clamp to the same
results). -/
def extractMixData (html mixId : List Char) : MixData :=
  let normalizedHtml := normalizeHtml html
  let title := match titleSearch normalizedHtml with
    | some raw => cleanTitle raw
    | none => []
  let date := match dateSearch html with
    | some dp => parseDate (mdyText dp)
    | none => []
  let format := match scanFormat html with
    | some f => f
    | none => "cd".toList
  let notes := match dedicationSearch html with
    | some name => "for ".toList ++ (jsTrim name).map jsToLower
    | none => []
  let hasSideA := testSideMark 'a' html
  let hasSideB := testSideMark 'b' html
  let isCassette := format == "cassette".toList || (hasSideA && hasSideB)
  if isCassette && hasSideA && hasSideB then
    let sideBIndex := (searchSideB html).getD 0
    let sA := extractTracksFromHtml (html.take sideBIndex)
    let sB := extractTracksFromHtml (html.drop sideBIndex)
    { id := mixId, title := title, date := date, format := "cassette".toList,
      notes := notes, tracks := sA ++ sB, sideA := some sA, sideB := some sB }
  else
    { id := mixId, title := title, date := date, format := format, notes := notes,
      tracks := extractTracksFromHtml normalizedHtml, sideA := none, sideB := none }

/-! ## `createMixFile` (lines 187-210) -/

/-- The persisted JSON object.  Every field below is always present in
the written file (`sideA`/`sideB` are the only conditional keys,
modelled with `Option`). -/
structure MixJson where
  title : List Char
  date : List Char
  format : List Char
  notes : List Char
  artOfTheMixUrl : List Char
  tracks : List Track
  sideA : Option (List Track)
  sideB : Option (List Track)
deriving DecidableEq, Repr

/-- `createMixFile`: derived file name and the serialized record. -/
def createMixFile (mixData : MixData) : List Char × MixJson :=
  let slug := slugify mixData.title
  let fileName := slug ++ ".json".toList
  let withSides :=
    mixData.format == "cassette".toList && mixData.sideA.isSome && mixData.sideB.isSome
  (fileName,
   { title := mixData.title.map jsToLower
     date := mixData.date
     format := mixData.format
     notes := mixData.notes
     artOfTheMixUrl := "https://www.artofthemix.org/mix/".toList ++ mixData.id
     tracks := mixData.tracks
     sideA := if withSides then mixData.sideA else none
     sideB := if withSides then mixData.sideB else none })

/-! ## `fetchPage` (lines 44-50) and the orchestrator (lines 225-290) -/

structure HttpResponse where
  ok : Bool
  status : Nat
  body : List Char
deriving DecidableEq, Repr

/-- `fetchPage`: non-`ok` responses raise an error carrying the URL and
status. -/
def fetchPage (url : List Char) (resp : HttpResponse) : Except (List Char) (List Char) :=
  if !resp.ok then
    Except.error ("Failed to fetch ".toList ++ url ++ ": ".toList ++ (Nat.repr resp.status).toList)
  else Except.ok resp.body

/-- Phase 1 of `importMixes`: per-page ids are appended
(`allMixIds.push(...ids)`); a failed page fetch is caught and skipped. -/
def importMixesPhase1 (pages : List (Except (List Char) (List Char))) : List (List Char) :=
  pages.foldl
    (fun acc p =>
      match p with
      | Except.ok html => acc ++ extractMixIds html
      | Except.error _ => acc)
    []

structure ImportState where
  created : Nat
  errors : Nat
  written : List (List Char × MixJson)
deriving DecidableEq, Repr

/-- `let created = 0; let errors = 0;` and no file written yet. -/
def initState : ImportState :=
  { created := 0, errors := 0, written := [] }

/-- One iteration of the phase-2 loop body: on a successful fetch,
extract; persist only when `mixData.title` is truthy and
`mixData.tracks.length > 0`, otherwise count an error; a thrown fetch
error is caught and counted. -/
def processMix (st : ImportState) (item : List Char × Except (List Char) (List Char)) :
    ImportState :=
  match item.2 with
  | Except.ok html =>
    let mixData := extractMixData html item.1
    if mixData.title ≠ [] ∧ mixData.tracks.length > 0 then
      { created := st.created + 1, errors := st.errors,
        written := st.written ++ [createMixFile mixData] }
    else { st with errors := st.errors + 1 }
  | Except.error _ => { st with errors := st.errors + 1 }

/-- Phase 2 of `importMixes` over the per-id fetch outcomes. -/
def importMixesPhase2 (fetches : List (List Char × Except (List Char) (List Char))) :
    ImportState :=
  fetches.foldl processMix initState

def mixUrl (mixId : List Char) : List Char :=
  "https://www.artofthemix.org/mix/".toList ++ mixId

/-- One phase-2 iteration starting from the raw HTTP response. -/
def httpStep (st : ImportState) (pr : List Char × HttpResponse) : ImportState :=
  processMix st (pr.1, fetchPage (mixUrl pr.1) pr.2)

/-- Phase 2 driven by raw HTTP responses through `fetchPage`. -/
def importMixesPhase2Http (responses : List (List Char × HttpResponse)) : ImportState :=
  responses.foldl httpStep initState

/-- Pointwise combination of two orchestrator states: counters add,
written files concatenate. -/
def combine (st d : ImportState) : ImportState :=
  { created := st.created + d.created, errors := st.errors + d.errors,
    written := st.written ++ d.written }

/-- The record persisted for one fetch outcome, if any (the phase-2 loop
body as a partial map). -/
def writeOf (item : List Char × Except (List Char) (List Char)) :
    Option (List Char × MixJson) :=
  match item.2 with
  | Except.ok html =>
    let mixData := extractMixData html item.1
    if mixData.title ≠ [] ∧ mixData.tracks.length > 0 then some (createMixFile mixData)
    else none
  | Except.error _ => none

/-- The successfully fetched pages, in order. -/
def okPages (pages : List (Except (List Char) (List Char))) : List (List Char) :=
  pages.filterMap
    (fun p =>
      match p with
      | Except.ok html => some html
      | Except.error _ => none)

/-! ## The normalizer script (`cleanTracks` and the per-file loop) -/

/-- Leaf JSON values carried by fields the normalizer never inspects
(modelled as atoms; their own structure is irrelevant to the cleanup). -/
inductive JVal where
  | str (s : List Char)
  | int (n : Int)
  | boolean (b : Bool)
  | null
deriving DecidableEq, Repr

/-- A parsed track entry of a persisted file: `title`, `artist`, plus
any additional keys the file may carry. -/
structure JTrack where
  title : List Char
  artist : List Char
  extra : List (List Char × JVal)
deriving DecidableEq, Repr

/-- A parsed persisted record: the four keys the normalizer touches,
plus all remaining keys (`date`, `format`, `notes`, `artOfTheMixUrl`,
and anything else present in the file). -/
structure NormRecord where
  title : Option (List Char)
  tracks : Option (List JTrack)
  sideA : Option (List JTrack)
  sideB : Option (List JTrack)
  otherFields : List (List Char × JVal)
deriving DecidableEq, Repr

def nbspTok : List Char := "&nbsp;".toList

/-- Does `s` begin with the literal `&nbsp;`? -/
def startsWithTok (s : List Char) : Bool :=
  s.take 6 == nbspTok

/-- Does `s` contain `&nbsp;`? -/
def hasNbsp : List Char → Bool
  | [] => false
  | c :: cs => startsWithTok (c :: cs) || hasNbsp cs

/-- `.replace(/&nbsp;/g, '')`: left-to-right single pass; the scan
resumes after each removed token and never rescans the junction. -/
def removeNbspF : Nat → List Char → List Char
  | 0, s => s
  | _, [] => []
  | f+1, c :: cs =>
    if startsWithTok (c :: cs) then removeNbspF f ((c :: cs).drop 6)
    else c :: removeNbspF f cs

def removeNbsp (s : List Char) : List Char :=
  removeNbspF (s.length + 1) s

/-- `.replace(/&nbsp;/g, '').trim()`. -/
def cleanField (s : List Char) : List Char :=
  jsTrim (removeNbsp s)

/-- The normalizer's `cleanTracks`: each entry is rebuilt as an object
literal with exactly `title` and `artist`. -/
def cleanTracks (ts : List JTrack) : List JTrack :=
  ts.map (fun t => { title := cleanField t.title, artist := cleanField t.artist, extra := [] })

/-- `if (data.title) data.title = ...`: a missing key or a present empty
string is falsy and left untouched. -/
def cleanTitleOpt : Option (List Char) → Option (List Char)
  | some t => if t ≠ [] then some (cleanField t) else some t
  | none => none

/-- `if (data.tracks) data.tracks = cleanTracks(data.tracks)`: a missing
key is falsy; a present array (even empty) is truthy. -/
def cleanTracksOpt : Option (List JTrack) → Option (List JTrack)
  | some ts => some (cleanTracks ts)
  | none => none

/-- The per-file body of the normalizer loop: clean `tracks`, `sideA`,
`sideB` when present, and `title` when truthy; every other key of the
parsed object is written back as parsed. -/
def cleanMixRecord (data : NormRecord) : NormRecord :=
  { title := cleanTitleOpt data.title
    tracks := cleanTracksOpt data.tracks
    sideA := cleanTracksOpt data.sideA
    sideB := cleanTracksOpt data.sideB
    otherFields := data.otherFields }

/-- Canonical-date shape `YYYY-MM-DD`: ten characters, digits except for
hyphens at positions 4 and 7. -/
def isCanonicalDate : List Char → Bool
  | [y1, y2, y3, y4, h1, m1, m2, h2, d1, d2] =>
    isDigit y1 && isDigit y2 && isDigit y3 && isDigit y4 &&
    h1 == '-' && h2 == '-' && isDigit m1 && isDigit m2 && isDigit d1 && isDigit d2
  | _ => false

/-- A string already in lower-cased form. -/
def isLowerStr (s : List Char) : Bool :=
  s.map jsToLower == s

/-- A track entry whose text fields are free of the `&nbsp;` token. -/
def nbspFreeTrack (t : JTrack) : Bool :=
  !hasNbsp t.title && !hasNbsp t.artist

def nbspFreeTitleOpt : Option (List Char) → Bool
  | some t => !hasNbsp t
  | none => true

def nbspFreeTracksOpt : Option (List JTrack) → Bool
  | some ts => ts.all nbspFreeTrack
  | none => true

/-- A record whose cleanable text fields are free of the `&nbsp;` token. -/
def nbspFreeRecord (r : NormRecord) : Bool :=
  nbspFreeTitleOpt r.title && nbspFreeTracksOpt r.tracks &&
  nbspFreeTracksOpt r.sideA && nbspFreeTracksOpt r.sideB

/-- All captured date characters are ASCII digits (what the date regex
guarantees about its capture). -/
def dateDigits (dp : DateParts) : Prop :=
  isDigit dp.m1 = true ∧ (∀ b, dp.m2 = some b → isDigit b = true) ∧
  isDigit dp.d1 = true ∧ (∀ b, dp.d2 = some b → isDigit b = true) ∧
  isDigit dp.y1 = true ∧ isDigit dp.y2 = true ∧
  isDigit dp.y3 = true ∧ isDigit dp.y4 = true

/-! # Theorems

General helper lemmas first, then one theorem per claim (with witnesses
and counterexamples where applicable). -/

theorem dropWhile_head?_not {p : Char → Bool} :
    ∀ (l : List Char) {c : Char}, (l.dropWhile p).head? = some c → p c = false := by
  intro l
  induction l with
  | nil => intro c h; simp at h
  | cons a l ih =>
    intro c h
    by_cases hp : p a = true
    · rw [List.dropWhile_cons_of_pos hp] at h
      exact ih h
    · rw [List.dropWhile_cons_of_neg hp] at h
      simp only [List.head?_cons, Option.some.injEq] at h
      subst h
      exact Bool.eq_false_iff.mpr hp

theorem trimRight_eq_rdropWhile (s : List Char) : trimRight s = s.rdropWhile jsWs := rfl

theorem jsTrim_getLast?_not_ws (s : List Char) {c : Char}
    (h : (jsTrim s).getLast? = some c) : jsWs c = false := by
  have h' : (List.dropWhile jsWs (trimRight s)).getLast? = some c := h
  obtain ⟨t, ht⟩ := List.dropWhile_suffix (l := trimRight s) jsWs
  have hy : (trimRight s).getLast? = some c := by
    rw [← ht, List.getLast?_append, h']
    rfl
  have hyne : trimRight s ≠ [] := by
    intro he
    rw [he] at hy
    simp at hy
  rw [trimRight_eq_rdropWhile] at hy hyne
  have hnot := List.rdropWhile_last_not (p := jsWs) (l := s) hyne
  have heq : (List.rdropWhile jsWs s).getLast hyne = c := by
    have hg := List.getLast?_eq_getLast (List.rdropWhile jsWs s) hyne
    rw [hg] at hy
    exact Option.some.inj hy
  rw [heq] at hnot
  exact Bool.eq_false_iff.mpr hnot

theorem jsTrim_idem (s : List Char) : jsTrim (jsTrim s) = jsTrim s := by
  have h1 : trimRight (jsTrim s) = jsTrim s := by
    rw [trimRight_eq_rdropWhile]
    rw [List.rdropWhile_eq_self_iff]
    intro hl hws
    have hf : jsWs ((jsTrim s).getLast hl) = false :=
      jsTrim_getLast?_not_ws s (List.getLast?_eq_getLast _ hl)
    rw [hws] at hf
    simp at hf
  show trimLeft (trimRight (jsTrim s)) = jsTrim s
  rw [h1]
  show List.dropWhile jsWs (List.dropWhile jsWs (trimRight s)) = jsTrim s
  rw [List.dropWhile_idempotent]
  rfl

theorem removeNbspF_of_not_hasNbsp :
    ∀ (f : Nat) (s : List Char), hasNbsp s = false → removeNbspF f s = s := by
  intro f
  induction f with
  | zero => intro s _; cases s <;> rfl
  | succ f ih =>
    intro s h
    match s with
    | [] => rfl
    | c :: cs =>
      rw [hasNbsp, Bool.or_eq_false_iff] at h
      rw [removeNbspF, if_neg (by simp [h.1]), ih cs h.2]

theorem removeNbsp_of_not_hasNbsp (s : List Char) (h : hasNbsp s = false) :
    removeNbsp s = s :=
  removeNbspF_of_not_hasNbsp _ s h

theorem cleanField_idem (s : List Char) (h : hasNbsp (cleanField s) = false) :
    cleanField (cleanField s) = cleanField s := by
  show jsTrim (removeNbsp (cleanField s)) = cleanField s
  rw [removeNbsp_of_not_hasNbsp _ h]
  show jsTrim (jsTrim (removeNbsp s)) = jsTrim (removeNbsp s)
  exact jsTrim_idem _

theorem cleanTracks_idem (ts : List JTrack)
    (h : (cleanTracks ts).all nbspFreeTrack = true) :
    cleanTracks (cleanTracks ts) = cleanTracks ts := by
  induction ts with
  | nil => rfl
  | cons t ts ih =>
    simp only [cleanTracks, List.map_cons, List.all_cons, Bool.and_eq_true] at h
    obtain ⟨h1, h2⟩ := h
    simp only [nbspFreeTrack, Bool.and_eq_true, Bool.not_eq_true'] at h1
    simp only [cleanTracks, List.map_cons, List.cons.injEq, JTrack.mk.injEq]
    refine ⟨⟨cleanField_idem _ h1.1, cleanField_idem _ h1.2, trivial⟩, ?_⟩
    exact ih h2

theorem cleanTitleOpt_idem (t? : Option (List Char))
    (h : nbspFreeTitleOpt (cleanTitleOpt t?) = true) :
    cleanTitleOpt (cleanTitleOpt t?) = cleanTitleOpt t? := by
  match t? with
  | none => rfl
  | some t =>
    by_cases ht : t = []
    · subst ht
      rfl
    · simp only [cleanTitleOpt, if_pos ht] at h ⊢
      by_cases hc : cleanField t = []
      · simp [hc]
      · simp only [if_pos hc, nbspFreeTitleOpt, Bool.not_eq_true'] at h ⊢
        rw [cleanField_idem _ h]

theorem cleanTracksOpt_idem (ts? : Option (List JTrack))
    (h : nbspFreeTracksOpt (cleanTracksOpt ts?) = true) :
    cleanTracksOpt (cleanTracksOpt ts?) = cleanTracksOpt ts? := by
  match ts? with
  | none => rfl
  | some ts =>
    simp only [cleanTracksOpt, nbspFreeTracksOpt] at h ⊢
    rw [cleanTracks_idem _ h]

/-- **C3** (counterexample): the per-record cleanup is *not* idempotent.
Removing `&nbsp;` tokens in a single left-to-right pass can create a new
token at the junction: a record whose title is `&nbs&nbsp;p;` is cleaned
to `&nbsp;` by the first pass and to the empty string by the second, so
the rewritten file differs between the first and second normalizer
runs. -/
theorem c3_counterexample :
    cleanMixRecord (cleanMixRecord
      { title := some "&nbs&nbsp;p;".toList, tracks := none,
        sideA := none, sideB := none, otherFields := [] }) ≠
    cleanMixRecord
      { title := some "&nbs&nbsp;p;".toList, tracks := none,
        sideA := none, sideB := none, otherFields := [] } := by
  decide

/-- **C3** (amended): the Normalizer's per-record cleanup is idempotent
for every record whose once-cleaned text fields contain no further
`&nbsp;` occurrence (the counterexample shows that stripping the token
can create a new occurrence, which the second pass then removes);
re-serialization is canonical, so record equality is byte equality. -/
theorem c3_cleanup_idempotent (r : NormRecord)
    (h : nbspFreeRecord (cleanMixRecord r) = true) :
    cleanMixRecord (cleanMixRecord r) = cleanMixRecord r := by
  rw [nbspFreeRecord, Bool.and_eq_true, Bool.and_eq_true, Bool.and_eq_true] at h
  obtain ⟨⟨⟨h1, h2⟩, h3⟩, h4⟩ := h
  simp only [cleanMixRecord] at h1 h2 h3 h4 ⊢
  rw [cleanTitleOpt_idem _ h1, cleanTracksOpt_idem _ h2, cleanTracksOpt_idem _ h3,
    cleanTracksOpt_idem _ h4]

/-- **C3** (witness for the amended theorem). -/
theorem c3_cleanup_idempotent_witness :
    nbspFreeRecord (cleanMixRecord
      { title := some " my&nbsp;mix ".toList,
        tracks := some [{ title := "a&nbsp;song".toList, artist := " b ".toList,
                          extra := [] }],
        sideA := none, sideB := none,
        otherFields := [("date".toList, JVal.str "1999-07-04".toList)] }) = true ∧
    cleanMixRecord (cleanMixRecord
      { title := some " my&nbsp;mix ".toList,
        tracks := some [{ title := "a&nbsp;song".toList, artist := " b ".toList,
                          extra := [] }],
        sideA := none, sideB := none,
        otherFields := [("date".toList, JVal.str "1999-07-04".toList)] }) =
    cleanMixRecord
      { title := some " my&nbsp;mix ".toList,
        tracks := some [{ title := "a&nbsp;song".toList, artist := " b ".toList,
                          extra := [] }],
        sideA := none, sideB := none,
        otherFields := [("date".toList, JVal.str "1999-07-04".toList)] } :=
  ⟨by decide, c3_cleanup_idempotent _ (by decide)⟩

/-- **C9** (counterexample): the Normalizer does not preserve every
field other than `title` and the track `title`/`artist` texts:
`cleanTracks` rebuilds each entry as an object literal containing
exactly `title` and `artist`, so an additional field on a track entry
(here `duration`) is silently dropped from the rewritten file. -/
theorem c9_counterexample :
    (cleanMixRecord
      { title := some "mix".toList,
        tracks := some [{ title := "a".toList, artist := "b".toList,
                          extra := [("duration".toList, JVal.int 3)] }],
        sideA := none, sideB := none,
        otherFields := [("date".toList, JVal.str "1999-07-04".toList)] }).tracks =
      some [{ title := "a".toList, artist := "b".toList, extra := [] }] ∧
    cleanMixRecord
      { title := some "mix".toList,
        tracks := some [{ title := "a".toList, artist := "b".toList,
                          extra := [("duration".toList, JVal.int 3)] }],
        sideA := none, sideB := none,
        otherFields := [("date".toList, JVal.str "1999-07-04".toList)] } ≠
      { title := some "mix".toList,
        tracks := some [{ title := "a".toList, artist := "b".toList,
                          extra := [("duration".toList, JVal.int 3)] }],
        sideA := none, sideB := none,
        otherFields := [("date".toList, JVal.str "1999-07-04".toList)] } := by
  constructor
  · decide
  · decide

/-- **C9** (amended): the Normalizer rewrites only the four keys
`title`, `tracks`, `sideA`, `sideB`; every other key of the record
(`date`, `format`, `notes`, the source-URL field, and any additional
record-level field) is preserved with its value unchanged, and the
presence of each of the four rewritten keys is preserved.  Track entries,
however, are rebuilt to contain exactly `title` and `artist`, so
entry-level extra fields are dropped (see the counterexample). -/
theorem c9_frame (r : NormRecord) :
    (cleanMixRecord r).otherFields = r.otherFields ∧
    ((cleanMixRecord r).title).isSome = r.title.isSome ∧
    ((cleanMixRecord r).tracks).isSome = r.tracks.isSome ∧
    ((cleanMixRecord r).sideA).isSome = r.sideA.isSome ∧
    ((cleanMixRecord r).sideB).isSome = r.sideB.isSome ∧
    (cleanMixRecord r).tracks =
      (r.tracks).map (fun ts => cleanTracks ts) := by
  refine ⟨rfl, ?_, ?_, ?_, ?_, ?_⟩
  · show (cleanTitleOpt r.title).isSome = _
    match h : r.title with
    | none => rfl
    | some t =>
      rw [cleanTitleOpt]
      by_cases ht : t = [] <;> simp [ht]
  · show (cleanTracksOpt r.tracks).isSome = _
    match h : r.tracks with
    | none => rfl
    | some ts => rfl
  · show (cleanTracksOpt r.sideA).isSome = _
    match h : r.sideA with
    | none => rfl
    | some ts => rfl
  · show (cleanTracksOpt r.sideB).isSome = _
    match h : r.sideB with
    | none => rfl
    | some ts => rfl
  · show cleanTracksOpt r.tracks = _
    match h : r.tracks with
    | none => rfl
    | some ts => rfl

theorem processMix_split (st : ImportState) (x : List Char × Except (List Char) (List Char)) :
    processMix st x = combine st (processMix initState x) := by
  obtain ⟨xid, xr⟩ := x
  cases xr with
  | error e => simp [processMix, combine, initState]
  | ok html =>
    by_cases h : (extractMixData html xid).title ≠ [] ∧ (extractMixData html xid).tracks.length > 0
    · simp [processMix, combine, initState, if_pos h]
    · simp [processMix, combine, initState, if_neg h]

theorem foldl_combine_eq {α : Type} {g : ImportState → α → ImportState}
    (hg : ∀ st x, g st x = combine st (g initState x)) :
    ∀ (xs : List α) (st : ImportState),
      xs.foldl g st = combine st (xs.foldl g initState) := by
  intro xs
  induction xs with
  | nil =>
    intro st
    show st = combine st initState
    cases st
    simp [combine, initState]
  | cons x xs ih =>
    intro st
    rw [List.foldl_cons, List.foldl_cons, ih (g st x), ih (g initState x), hg st x]
    cases st
    simp [combine, Nat.add_assoc, List.append_assoc]

theorem processMix_init_writeOf (x : List Char × Except (List Char) (List Char)) :
    processMix initState x =
      (match writeOf x with
       | some entry => { created := 1, errors := 0, written := [entry] }
       | none => { created := 0, errors := 1, written := [] }) := by
  obtain ⟨xid, xr⟩ := x
  cases xr with
  | error e => simp [processMix, writeOf, initState]
  | ok html =>
    by_cases h : (extractMixData html xid).title ≠ [] ∧ (extractMixData html xid).tracks.length > 0
    · simp [processMix, writeOf, initState, if_pos h]
    · simp [processMix, writeOf, initState, if_neg h]

theorem writeOf_valid (x : List Char × Except (List Char) (List Char))
    (e : List Char × MixJson) (h : writeOf x = some e) :
    e.2.title ≠ [] ∧ e.2.tracks ≠ [] := by
  obtain ⟨xid, xr⟩ := x
  cases xr with
  | error err => simp [writeOf] at h
  | ok html =>
    simp only [writeOf] at h
    split at h
    case isTrue hv =>
      obtain rfl : createMixFile (extractMixData html xid) = e := Option.some.inj h
      refine ⟨?_, ?_⟩
      · show (extractMixData html xid).title.map jsToLower ≠ []
        rw [Ne, List.map_eq_nil_iff]
        exact hv.1
      · show (extractMixData html xid).tracks ≠ []
        exact List.length_pos.mp hv.2
    case isFalse hv => exact absurd h (by simp)

/-- **C5**: the Orchestrator's second phase persists an extracted record
exactly when its title is non-empty and its track list is non-empty
(`written` is exactly the image of the guarded per-item map `writeOf`);
every persisted record has a non-empty title and at least one track, the
success counter equals the number of persisted records, and every
non-persisted item (invalid record or failed fetch) increments the error
counter instead, so the counters always sum to the number of processed
ids. -/
theorem c5_validation_gate (fetches : List (List Char × Except (List Char) (List Char))) :
    (importMixesPhase2 fetches).written = fetches.filterMap writeOf ∧
    (importMixesPhase2 fetches).created = (fetches.filterMap writeOf).length ∧
    (importMixesPhase2 fetches).created + (importMixesPhase2 fetches).errors =
      fetches.length ∧
    (∀ e ∈ (importMixesPhase2 fetches).written, e.2.title ≠ [] ∧ e.2.tracks ≠ []) := by
  have main : (importMixesPhase2 fetches).written = fetches.filterMap writeOf ∧
      (importMixesPhase2 fetches).created = (fetches.filterMap writeOf).length ∧
      (importMixesPhase2 fetches).created + (importMixesPhase2 fetches).errors =
        fetches.length := by
    induction fetches with
    | nil => exact ⟨rfl, rfl, rfl⟩
    | cons x xs ih =>
      have hstep : importMixesPhase2 (x :: xs) =
          combine (processMix initState x) (importMixesPhase2 xs) := by
        show (x :: xs).foldl processMix initState = _
        rw [List.foldl_cons]
        exact foldl_combine_eq processMix_split xs (processMix initState x)
      obtain ⟨ih1, ih2, ih3⟩ := ih
      rw [hstep, processMix_init_writeOf x]
      cases hw : writeOf x with
      | some entry =>
        simp only [combine, List.filterMap_cons, hw, ih1, ih2, List.length_cons]
        refine ⟨rfl, by omega, by simp [List.length_cons]; omega⟩
      | none =>
        simp only [combine, List.filterMap_cons, hw, ih1, ih2]
        refine ⟨by simp, by simp, by simp [List.length_cons]; omega⟩
  refine ⟨main.1, main.2.1, main.2.2, ?_⟩
  intro e he
  rw [main.1] at he
  obtain ⟨x, _, hx⟩ := List.mem_filterMap.mp he
  exact writeOf_valid x e hx

theorem httpStep_split (st : ImportState) (x : List Char × HttpResponse) :
    httpStep st x = combine st (httpStep initState x) :=
  processMix_split st (x.1, fetchPage (mixUrl x.1) x.2)

theorem foldl_httpStep_eq (xs : List (List Char × HttpResponse)) (st : ImportState) :
    xs.foldl httpStep st = combine st (xs.foldl httpStep initState) :=
  foldl_combine_eq httpStep_split xs st

/-- **C8**: a failed detail-page fetch (`response.ok = false`, e.g. HTTP
404, which makes `fetchPage` throw an error carrying the URL and status)
makes that iteration increment the error counter by exactly one and
nothing else: the records written, the success counter, and the
processing of every other id are identical to the run without that id.
A per-item failure never aborts the run. -/
theorem c8_fetch_error_continues (pre post : List (List Char × HttpResponse))
    (mixId : List Char) (resp : HttpResponse) (h : resp.ok = false) :
    (importMixesPhase2Http (pre ++ (mixId, resp) :: post)).written =
      (importMixesPhase2Http (pre ++ post)).written ∧
    (importMixesPhase2Http (pre ++ (mixId, resp) :: post)).created =
      (importMixesPhase2Http (pre ++ post)).created ∧
    (importMixesPhase2Http (pre ++ (mixId, resp) :: post)).errors =
      (importMixesPhase2Http (pre ++ post)).errors + 1 := by
  have hbad : httpStep (pre.foldl httpStep initState) (mixId, resp) =
      { pre.foldl httpStep initState with
        errors := (pre.foldl httpStep initState).errors + 1 } := by
    show processMix _ (mixId, fetchPage (mixUrl mixId) resp) = _
    rw [fetchPage, if_pos (by simp [h])]
    rfl
  have hall : importMixesPhase2Http (pre ++ (mixId, resp) :: post) =
      combine { pre.foldl httpStep initState with
                errors := (pre.foldl httpStep initState).errors + 1 }
        (post.foldl httpStep initState) := by
    show (pre ++ (mixId, resp) :: post).foldl httpStep initState = _
    rw [List.foldl_append, List.foldl_cons, hbad, foldl_httpStep_eq]
  have hrest : importMixesPhase2Http (pre ++ post) =
      combine (pre.foldl httpStep initState) (post.foldl httpStep initState) := by
    show (pre ++ post).foldl httpStep initState = _
    rw [List.foldl_append, foldl_httpStep_eq]
  rw [hall, hrest]
  refine ⟨rfl, rfl, ?_⟩
  simp [combine]
  omega

/-- **C8** (witness). -/
theorem c8_fetch_error_continues_witness :
    ({ ok := false, status := 404, body := [] } : HttpResponse).ok = false ∧
    ((importMixesPhase2Http
        [(['5'], { ok := false, status := 404, body := [] })]).written =
      (importMixesPhase2Http ([] : List (List Char × HttpResponse))).written ∧
    (importMixesPhase2Http
        [(['5'], { ok := false, status := 404, body := [] })]).created =
      (importMixesPhase2Http ([] : List (List Char × HttpResponse))).created ∧
    (importMixesPhase2Http
        [(['5'], { ok := false, status := 404, body := [] })]).errors =
      (importMixesPhase2Http ([] : List (List Char × HttpResponse))).errors + 1) :=
  ⟨rfl, c8_fetch_error_continues [] [] ['5'] { ok := false, status := 404, body := [] } rfl⟩

theorem scanMixIds_foldl :
    ∀ (f : Nat) (s : List Char) (acc : List (List Char)),
      scanMixIdsF f s acc =
        (scanRawIdsF f s).foldl (fun a x => if x ∈ a then a else a ++ [x]) acc := by
  intro f
  induction f with
  | zero => intro s acc; cases s <;> rfl
  | succ f ih =>
    intro s acc
    match s with
    | [] => rfl
    | c :: cs =>
      cases h : tryMixIdAt (c :: cs) with
      | none =>
        simp only [scanMixIdsF, scanRawIdsF, h]
        exact ih cs acc
      | some pr =>
        obtain ⟨mixId, rest⟩ := pr
        simp only [scanMixIdsF, scanRawIdsF, h, List.foldl_cons]
        exact ih rest _

theorem dedupStep_foldl_nodup :
    ∀ (ids : List (List Char)) (acc : List (List Char)), acc.Nodup →
      (ids.foldl (fun a x => if x ∈ a then a else a ++ [x]) acc).Nodup := by
  intro ids
  induction ids with
  | nil => intro acc h; exact h
  | cons x ids ih =>
    intro acc h
    rw [List.foldl_cons]
    by_cases hx : x ∈ acc
    · rw [if_pos hx]
      exact ih acc h
    · rw [if_neg hx]
      exact ih _ (h.append (List.nodup_singleton x) (List.disjoint_singleton.mpr hx))

theorem importMixesPhase1_flatMap :
    ∀ (pages : List (Except (List Char) (List Char))) (acc : List (List Char)),
      pages.foldl
        (fun acc p =>
          match p with
          | Except.ok html => acc ++ extractMixIds html
          | Except.error _ => acc) acc =
      acc ++ (okPages pages).flatMap extractMixIds := by
  intro pages
  induction pages with
  | nil => intro acc; simp [okPages]
  | cons p pages ih =>
    intro acc
    cases p with
    | ok html =>
      rw [List.foldl_cons, ih]
      simp [okPages, List.filterMap_cons, List.flatMap_cons, List.append_assoc]
    | error e =>
      rw [List.foldl_cons, ih]
      simp [okPages, List.filterMap_cons]

/-- **C1** (counterexample): duplicate identifiers are *not* suppressed
across pages: two listing pages each containing `/mix/7` make the
accumulated collection hold `7` twice, because phase 1 appends each
page's ids (`allMixIds.push(...ids)`) without consulting the ids already
collected. -/
theorem c1_counterexample :
    importMixesPhase1 [Except.ok "x/mix/7".toList, Except.ok "x/mix/7".toList] =
      [['7'], ['7']] ∧
    ¬ (importMixesPhase1
        [Except.ok "x/mix/7".toList, Except.ok "x/mix/7".toList]).Nodup := by
  constructor
  · decide
  · decide

/-- **C1** (amended): within a single listing page, the ID Extractor
returns the distinct identifiers in first-seen order (it is exactly the
first-seen deduplication of the raw match sequence and contains no
duplicate); across pages, the discovery phase merely concatenates the
per-page results in page order, so identifiers repeated on different
pages appear repeatedly in the accumulated collection (see the
counterexample). -/
theorem c1_dedup_within_page_only (html : List Char)
    (pages : List (Except (List Char) (List Char))) :
    extractMixIds html = specFirstSeenDedup (rawMixIds html) ∧
    (extractMixIds html).Nodup ∧
    importMixesPhase1 pages = (okPages pages).flatMap extractMixIds := by
  refine ⟨scanMixIds_foldl _ _ [], ?_, ?_⟩
  · show (scanMixIdsF (html.length + 1) html []).Nodup
    rw [scanMixIds_foldl]
    exact dedupStep_foldl_nodup _ [] List.nodup_nil
  · show List.foldl _ [] pages = _
    rw [importMixesPhase1_flatMap pages []]
    rfl

/-- **C10**: a non-empty title with no ASCII alphanumeric character
slugifies to the empty string, and the Record Writer then derives the
file name `.json` for the record instead of failing. -/
theorem c10_empty_slug_filename :
    slugify "!!!".toList = [] ∧
    "!!!".toList ≠ [] ∧
    (∀ c ∈ "!!!".toList, isSlugChar c = false) ∧
    (createMixFile
      { id := ['1'], title := "!!!".toList, date := [], format := "cd".toList,
        notes := [], tracks := [{ title := ['t'], artist := ['a'] }],
        sideA := none, sideB := none }).1 = ".json".toList := by
  refine ⟨by decide, by decide, by decide, by decide⟩

theorem replaceRunsF_mem :
    ∀ (f : Nat) (s : List Char), s.length ≤ f →
      ∀ c ∈ replaceRunsF f s, isSlugChar c = true ∨ c = '-' := by
  intro f
  induction f with
  | zero =>
    intro s hs c hc
    have hnil : s = [] := List.eq_nil_of_length_eq_zero (Nat.le_zero.mp hs)
    subst hnil
    simp [replaceRunsF] at hc
  | succ f ih =>
    intro s hs c hc
    match s with
    | [] => simp [replaceRunsF] at hc
    | a :: as =>
      simp only [replaceRunsF] at hc
      by_cases ha : isSlugChar a = true
      · rw [if_pos ha] at hc
        rcases List.mem_cons.mp hc with hca | hca
        · exact Or.inl (hca ▸ ha)
        · exact ih as (by simpa using Nat.le_of_succ_le_succ (by simpa using hs)) c hca
      · rw [if_neg ha] at hc
        rcases List.mem_cons.mp hc with hca | hca
        · exact Or.inr hca
        · refine ih _ ?_ c hca
          have h1 : (as.dropWhile (fun d => !isSlugChar d)).length ≤ as.length :=
            (List.dropWhile_sublist _).length_le
          have h2 : as.length ≤ f := Nat.le_of_succ_le_succ (by simpa using hs)
          omega

theorem head_of_rdropWhile_dropWhile {p : Char → Bool} (z : List Char) {c : Char}
    (h : (List.rdropWhile p (z.dropWhile p)).head? = some c) : p c = false := by
  obtain ⟨t, ht⟩ := List.rdropWhile_prefix p (l := z.dropWhile p)
  have h1 : (z.dropWhile p).head? = some c := by
    rw [← ht, List.head?_append, h]
    rfl
  exact dropWhile_head?_not z h1

theorem getLast_of_rdropWhile {p : Char → Bool} (y : List Char) {c : Char}
    (h : (List.rdropWhile p y).getLast? = some c) : p c = false := by
  have hne : List.rdropWhile p y ≠ [] := by
    intro he
    rw [he] at h
    simp at h
  have hnot := List.rdropWhile_last_not (p := p) (l := y) hne
  have hlast : (List.rdropWhile p y).getLast hne = c := by
    have hg := List.getLast?_eq_getLast (List.rdropWhile p y) hne
    rw [hg] at h
    exact Option.some.inj h
  rw [hlast] at hnot
  exact Bool.eq_false_iff.mpr hnot

theorem head?_take_eq {y : List Char} {n : Nat} {c : Char}
    (h : (y.take n).head? = some c) : y.head? = some c := by
  match y, n with
  | [], _ => simp at h
  | a :: ys, 0 => simp at h
  | a :: ys, n+1 =>
    simp only [List.take_succ_cons, List.head?_cons] at h ⊢
    exact h

/-- **C2** (counterexample): the slug is *not* always free of a trailing
hyphen: `substring(0, 80)` runs after the edge-hyphen trim, so a long
title can be cut right after a hyphen.  The 82-character title
`"a a a ... a "` (41 repetitions of `"a "`) slugifies to 80 characters
ending in `-`. -/
theorem c2_counterexample :
    (slugify ((List.replicate 41 ['a', ' ']).flatten)).getLast? = some '-' ∧
    (slugify ((List.replicate 41 ['a', ' ']).flatten)).length = 80 := by
  constructor
  · decide
  · decide

/-- **C2** (amended): slug derivation is a pure function whose output
consists only of lowercase ASCII alphanumerics and hyphens, never starts
with a hyphen, and has length at most 80; it also never *ends* with a
hyphen provided the slug before truncation is at most 80 characters long
(the counterexample shows truncation of a longer slug can leave a
trailing hyphen). -/
theorem c2_slug_safe (title : List Char) :
    (∀ c ∈ slugify title, isSlugChar c = true ∨ c = '-') ∧
    (∀ c, (slugify title).head? = some c → c ≠ '-') ∧
    (slugify title).length ≤ 80 ∧
    ((preSlug title).length ≤ 80 →
      ∀ c, (slugify title).getLast? = some c → c ≠ '-') := by
  refine ⟨?_, ?_, List.length_take_le _ _, ?_⟩
  · intro c hc
    have h1 : c ∈ preSlug title := (List.take_sublist _ _).subset hc
    have h2 : c ∈ replaceRunsF
        ((title.map jsToLower).filter (fun c => c ≠ '\'')).length
        ((title.map jsToLower).filter (fun c => c ≠ '\'')) := by
      have hpre := List.rdropWhile_prefix (fun c : Char => c = '-')
        (l := (replaceRunsF
          ((title.map jsToLower).filter (fun c => c ≠ '\'')).length
          ((title.map jsToLower).filter (fun c => c ≠ '\''))).dropWhile
            (fun c : Char => c = '-'))
      exact (List.dropWhile_sublist _).subset (hpre.sublist.subset h1)
    exact replaceRunsF_mem _ _ (Nat.le_refl _) c h2
  · intro c hc
    have h1 := head_of_rdropWhile_dropWhile
      (p := fun c : Char => c = '-')
      (replaceRunsF
        ((title.map jsToLower).filter (fun c => c ≠ '\'')).length
        ((title.map jsToLower).filter (fun c => c ≠ '\'')))
      (head?_take_eq hc)
    exact of_decide_eq_false h1
  · intro hlen c hc
    rw [slugify, List.take_of_length_le hlen] at hc
    have h1 := getLast_of_rdropWhile
      (p := fun c : Char => c = '-')
      ((replaceRunsF
        ((title.map jsToLower).filter (fun c => c ≠ '\'')).length
        ((title.map jsToLower).filter (fun c => c ≠ '\''))).dropWhile
          (fun c : Char => c = '-'))
      hc
    exact of_decide_eq_false h1

/-- **C2** (witness for the amended theorem, on the spec's own example
title). -/
theorem c2_slug_safe_witness :
    (preSlug "Midnight in a Perfect World!! ".toList).length ≤ 80 ∧
    (∀ c, (slugify "Midnight in a Perfect World!! ".toList).getLast? = some c →
      c ≠ '-') :=
  ⟨by decide, (c2_slug_safe "Midnight in a Perfect World!! ".toList).2.2.2 (by decide)⟩

/-- **C4**: when both a "Side A" and a "Side B" marker occur in a detail
page, `extractMixData` reports the cassette format, extracts `sideA`
from the text before the first "Side B" marker and `sideB` from that
marker onward (inclusive), and sets `tracks` to `sideA ++ sideB`, so the
track count is the sum of the side lengths. -/
theorem c4_cassette_split (html mixId : List Char)
    (hA : testSideMark 'a' html = true) (hB : testSideMark 'b' html = true) :
    (extractMixData html mixId).format = "cassette".toList ∧
    (extractMixData html mixId).sideA =
      some (extractTracksFromHtml (html.take ((searchSideB html).getD 0))) ∧
    (extractMixData html mixId).sideB =
      some (extractTracksFromHtml (html.drop ((searchSideB html).getD 0))) ∧
    (extractMixData html mixId).tracks =
      extractTracksFromHtml (html.take ((searchSideB html).getD 0)) ++
      extractTracksFromHtml (html.drop ((searchSideB html).getD 0)) ∧
    (extractMixData html mixId).tracks.length =
      ((extractMixData html mixId).sideA.getD []).length +
      ((extractMixData html mixId).sideB.getD []).length := by
  simp only [extractMixData, hA, hB, Bool.and_true, Bool.true_and, Bool.or_true,
    Bool.and_self, if_true]
  refine ⟨trivial, trivial, trivial, trivial, ?_⟩
  simp [List.length_append]

/-- **C4** (witness): a cassette page with one table row per side. -/
theorem c4_cassette_split_witness :
    testSideMark 'a' "Format: Cassette Side A<table><tr><td>a1</td><td>t1</td></tr></table>Side B<table><tr><td>a2</td><td>t2</td></tr></table>".toList = true ∧
    testSideMark 'b' "Format: Cassette Side A<table><tr><td>a1</td><td>t1</td></tr></table>Side B<table><tr><td>a2</td><td>t2</td></tr></table>".toList = true ∧
    ((extractMixData "Format: Cassette Side A<table><tr><td>a1</td><td>t1</td></tr></table>Side B<table><tr><td>a2</td><td>t2</td></tr></table>".toList ['4']).format = "cassette".toList ∧
    (extractMixData "Format: Cassette Side A<table><tr><td>a1</td><td>t1</td></tr></table>Side B<table><tr><td>a2</td><td>t2</td></tr></table>".toList ['4']).sideA =
      some (extractTracksFromHtml ("Format: Cassette Side A<table><tr><td>a1</td><td>t1</td></tr></table>Side B<table><tr><td>a2</td><td>t2</td></tr></table>".toList.take ((searchSideB "Format: Cassette Side A<table><tr><td>a1</td><td>t1</td></tr></table>Side B<table><tr><td>a2</td><td>t2</td></tr></table>".toList).getD 0))) ∧
    (extractMixData "Format: Cassette Side A<table><tr><td>a1</td><td>t1</td></tr></table>Side B<table><tr><td>a2</td><td>t2</td></tr></table>".toList ['4']).sideB =
      some (extractTracksFromHtml ("Format: Cassette Side A<table><tr><td>a1</td><td>t1</td></tr></table>Side B<table><tr><td>a2</td><td>t2</td></tr></table>".toList.drop ((searchSideB "Format: Cassette Side A<table><tr><td>a1</td><td>t1</td></tr></table>Side B<table><tr><td>a2</td><td>t2</td></tr></table>".toList).getD 0))) ∧
    (extractMixData "Format: Cassette Side A<table><tr><td>a1</td><td>t1</td></tr></table>Side B<table><tr><td>a2</td><td>t2</td></tr></table>".toList ['4']).tracks =
      extractTracksFromHtml ("Format: Cassette Side A<table><tr><td>a1</td><td>t1</td></tr></table>Side B<table><tr><td>a2</td><td>t2</td></tr></table>".toList.take ((searchSideB "Format: Cassette Side A<table><tr><td>a1</td><td>t1</td></tr></table>Side B<table><tr><td>a2</td><td>t2</td></tr></table>".toList).getD 0)) ++
      extractTracksFromHtml ("Format: Cassette Side A<table><tr><td>a1</td><td>t1</td></tr></table>Side B<table><tr><td>a2</td><td>t2</td></tr></table>".toList.drop ((searchSideB "Format: Cassette Side A<table><tr><td>a1</td><td>t1</td></tr></table>Side B<table><tr><td>a2</td><td>t2</td></tr></table>".toList).getD 0)) ∧
    (extractMixData "Format: Cassette Side A<table><tr><td>a1</td><td>t1</td></tr></table>Side B<table><tr><td>a2</td><td>t2</td></tr></table>".toList ['4']).tracks.length =
      ((extractMixData "Format: Cassette Side A<table><tr><td>a1</td><td>t1</td></tr></table>Side B<table><tr><td>a2</td><td>t2</td></tr></table>".toList ['4']).sideA.getD []).length +
      ((extractMixData "Format: Cassette Side A<table><tr><td>a1</td><td>t1</td></tr></table>Side B<table><tr><td>a2</td><td>t2</td></tr></table>".toList ['4']).sideB.getD []).length) :=
  ⟨by decide, by decide,
    c4_cassette_split
      "Format: Cassette Side A<table><tr><td>a1</td><td>t1</td></tr></table>Side B<table><tr><td>a2</td><td>t2</td></tr></table>".toList
      ['4'] (by decide) (by decide)⟩



theorem digit_ne_slash {c : Char} (h : isDigit c = true) : ¬ c = '/' := by
  intro he
  rw [he] at h
  exact absurd h (by decide)

theorem parse12_sound {r : List Char} {a : Char} {ob : Option Char} {rest : List Char}
    (h : parse12 r = some ((a, ob), rest)) :
    isDigit a = true ∧ ∀ b, ob = some b → isDigit b = true := by
  match r with
  | [] => simp [parse12] at h
  | a' :: rest' =>
    simp only [parse12] at h
    split at h
    · rename_i hda
      split at h
      · simp at h
      · rename_i b rest2
        split at h
        · rename_i hdb
          split at h
          · simp only [Option.some.injEq, Prod.mk.injEq] at h
            obtain ⟨⟨ha, hob⟩, -⟩ := h
            subst ha
            refine ⟨hda, ?_⟩
            intro b' hb'
            rw [← hob] at hb'
            exact (Option.some.inj hb') ▸ hdb
          · simp at h
        · split at h
          · simp only [Option.some.injEq, Prod.mk.injEq] at h
            obtain ⟨⟨ha, hob⟩, -⟩ := h
            subst ha
            refine ⟨hda, ?_⟩
            intro b' hb'
            rw [← hob] at hb'
            exact absurd hb' (by simp)
          · simp at h
    · simp at h

theorem parse4_sound {r : List Char} {a b c d : Char}
    (h : parse4 r = some (a, b, c, d)) :
    isDigit a = true ∧ isDigit b = true ∧ isDigit c = true ∧ isDigit d = true := by
  match r with
  | [] => simp [parse4] at h
  | [x] => simp [parse4] at h
  | [x, y] => simp [parse4] at h
  | [x, y, z] => simp [parse4] at h
  | x :: y :: z :: w :: rest =>
    simp only [parse4] at h
    split at h
    · simp only [Option.some.injEq, Prod.mk.injEq] at h
      obtain ⟨ha, hb, hc, hd⟩ := h
      subst ha; subst hb; subst hc; subst hd
      rename_i hall
      exact ⟨hall.1, hall.2.1, hall.2.2.1, hall.2.2.2⟩
    · simp at h

theorem parseMDY_sound {s : List Char} {dp : DateParts} (h : parseMDY s = some dp) :
    dateDigits dp := by
  simp only [parseMDY, Option.bind_eq_bind, Option.bind_eq_some, Option.pure_def,
    Option.some.injEq] at h
  obtain ⟨⟨m, s1⟩, h1, ⟨d, s2⟩, h2, y, h3, h4⟩ := h
  obtain ⟨hm1, hm2⟩ := parse12_sound h1
  obtain ⟨hd1, hd2⟩ := parse12_sound h2
  obtain ⟨hy1, hy2, hy3, hy4⟩ := parse4_sound (show parse4 s2 = some (y.1, y.2.1, y.2.2.1, y.2.2.2) from by rwa [show (y.1, y.2.1, y.2.2.1, y.2.2.2) = y from rfl])
  subst h4
  exact ⟨hm1, hm2, hd1, hd2, hy1, hy2, hy3, hy4⟩

theorem trySubmitDateAt_sound {s : List Char} {dp : DateParts}
    (h : trySubmitDateAt s = some dp) : dateDigits dp := by
  simp only [trySubmitDateAt, Option.bind_eq_bind, Option.bind_eq_some] at h
  obtain ⟨s1, -, s2, -, hmdy⟩ := h
  exact parseMDY_sound hmdy

theorem trySubmittedAt_sound {s : List Char} {dp : DateParts}
    (h : trySubmittedAt s = some dp) : dateDigits dp := by
  simp only [trySubmittedAt, Option.bind_eq_bind, Option.bind_eq_some] at h
  obtain ⟨s1, -, hmdy⟩ := h
  exact parseMDY_sound hmdy

theorem scanSubmitDate_sound :
    ∀ (s : List Char) {dp : DateParts}, scanSubmitDate s = some dp → dateDigits dp := by
  intro s
  induction s with
  | nil => intro dp h; simp [scanSubmitDate] at h
  | cons c cs ih =>
    intro dp h
    simp only [scanSubmitDate] at h
    cases ht : trySubmitDateAt (c :: cs) with
    | some r =>
      rw [ht] at h
      exact trySubmitDateAt_sound (ht.trans (congrArg some (Option.some.inj h)))
    | none =>
      rw [ht] at h
      exact ih h

theorem scanSubmitted_sound :
    ∀ (s : List Char) {dp : DateParts}, scanSubmitted s = some dp → dateDigits dp := by
  intro s
  induction s with
  | nil => intro dp h; simp [scanSubmitted] at h
  | cons c cs ih =>
    intro dp h
    simp only [scanSubmitted] at h
    cases ht : trySubmittedAt (c :: cs) with
    | some r =>
      rw [ht] at h
      exact trySubmittedAt_sound (ht.trans (congrArg some (Option.some.inj h)))
    | none =>
      rw [ht] at h
      exact ih h

theorem dateSearch_sound (html : List Char) {dp : DateParts}
    (h : dateSearch html = some dp) : dateDigits dp := by
  simp only [dateSearch] at h
  cases ht : scanSubmitDate html with
  | some r =>
    rw [ht] at h
    exact scanSubmitDate_sound html (ht.trans (congrArg some (Option.some.inj h)))
  | none =>
    rw [ht] at h
    exact scanSubmitted_sound html h

theorem isCanonicalDate_parseDate (dp : DateParts) (hd : dateDigits dp) :
    isCanonicalDate (parseDate (mdyText dp)) = true := by
  obtain ⟨h1, h2, h3, h4, h5, h6, h7, h8⟩ := hd
  have hd0 : isDigit '0' = true := by decide
  have hm1 : ¬ dp.m1 = '/' := digit_ne_slash h1
  have hd1 : ¬ dp.d1 = '/' := digit_ne_slash h3
  have hy1 : ¬ dp.y1 = '/' := digit_ne_slash h5
  have hy2 : ¬ dp.y2 = '/' := digit_ne_slash h6
  have hy3 : ¬ dp.y3 = '/' := digit_ne_slash h7
  have hy4 : ¬ dp.y4 = '/' := digit_ne_slash h8
  cases hm2 : dp.m2 with
  | none =>
    cases hd2 : dp.d2 with
    | none =>
      simp [mdyText, optToList, hm2, hd2, parseDate, splitSlash, hm1, hd1, hy1, hy2, hy3, hy4,
        padStart2, isCanonicalDate, h1, h3, h5, h6, h7, h8, hd0]
    | some db =>
      have hdb : isDigit db = true := h4 db hd2
      have hdbs : ¬ db = '/' := digit_ne_slash hdb
      simp [mdyText, optToList, hm2, hd2, parseDate, splitSlash, hm1, hd1, hy1, hy2, hy3, hy4,
        hdbs, padStart2, isCanonicalDate, h1, h3, h5, h6, h7, h8, hdb, hd0]
  | some mb =>
    have hmb : isDigit mb = true := h2 mb hm2
    have hmbs : ¬ mb = '/' := digit_ne_slash hmb
    cases hd2 : dp.d2 with
    | none =>
      simp [mdyText, optToList, hm2, hd2, parseDate, splitSlash, hm1, hd1, hy1, hy2, hy3, hy4,
        hmbs, padStart2, isCanonicalDate, h1, h3, h5, h6, h7, h8, hmb, hd0]
    | some db =>
      have hdb : isDigit db = true := h4 db hd2
      have hdbs : ¬ db = '/' := digit_ne_slash hdb
      simp [mdyText, optToList, hm2, hd2, parseDate, splitSlash, hm1, hd1, hy1, hy2, hy3, hy4,
        hmbs, hdbs, padStart2, isCanonicalDate, h1, h3, h5, h6, h7, h8, hmb, hdb, hd0]

/-- **C7** (counterexample): when no labeled date is discoverable, the
date field is *not* absent from the persisted record: `jsonData` always
carries a `date` key, which is then the empty string (neither canonical
`YYYY-MM-DD` nor absent).  The record below is otherwise valid (title
and one track), so it is persisted with `date: ""`. -/
theorem c7_counterexample :
    (createMixFile (extractMixData "<h1>T</h1><li>x - y</li>".toList ['9'])).2.date = [] ∧
    isCanonicalDate
      (createMixFile (extractMixData "<h1>T</h1><li>x - y</li>".toList ['9'])).2.date =
      false ∧
    (extractMixData "<h1>T</h1><li>x - y</li>".toList ['9']).title ≠ [] ∧
    (extractMixData "<h1>T</h1><li>x - y</li>".toList ['9']).tracks ≠ [] := by
  refine ⟨by decide, by decide, by decide, by decide⟩

/-- **C7** (amended): the `date` field of every persisted record is
either the empty string (when no labeled `M/D/YYYY` date is found on the
page — the field is present but empty, not absent) or in canonical
zero-padded `YYYY-MM-DD` form; the reformatting sends `7/4/1999` to
`1999-07-04` and `12/31/2003` to `2003-12-31`. -/
theorem c7_date_canonical_or_empty (html mixId : List Char) :
    ((createMixFile (extractMixData html mixId)).2.date = [] ∨
      isCanonicalDate ((createMixFile (extractMixData html mixId)).2.date) = true) ∧
    parseDate "7/4/1999".toList = "1999-07-04".toList ∧
    parseDate "12/31/2003".toList = "2003-12-31".toList := by
  refine ⟨?_, by decide, by decide⟩
  have hdate : (createMixFile (extractMixData html mixId)).2.date =
      (extractMixData html mixId).date := rfl
  rw [hdate]
  cases hds : dateSearch html with
  | none =>
    left
    simp only [extractMixData, hds]
    split
    · rfl
    · rfl
  | some dp =>
    right
    have hd : dateDigits dp := dateSearch_sound html hds
    have he : (extractMixData html mixId).date = parseDate (mdyText dp) := by
      simp only [extractMixData, hds]
      split
      · rfl
      · rfl
    rw [he]
    exact isCanonicalDate_parseDate dp hd



theorem char_toNat_ofNat_eq {m : Nat} (h : m < 55296) : (Char.ofNat m).toNat = m := by
  have hv : m.isValidChar := Or.inl h
  rw [Char.ofNat, dif_pos hv]
  simp [Char.ofNatAux, Char.toNat, UInt32.toNat]

theorem jsToLower_idem (c : Char) : jsToLower (jsToLower c) = jsToLower c := by
  by_cases h : c.toNat ≥ 65 ∧ c.toNat ≤ 90
  · have h1 : jsToLower c = Char.ofNat (c.toNat + 32) := by
      show Char.toLower c = _
      simp only [Char.toLower]
      rw [if_pos h]
    have hval : (Char.ofNat (c.toNat + 32)).toNat = c.toNat + 32 :=
      char_toNat_ofNat_eq (by omega)
    have h2 : jsToLower (Char.ofNat (c.toNat + 32)) = Char.ofNat (c.toNat + 32) := by
      show Char.toLower _ = _
      simp only [Char.toLower]
      rw [if_neg (by rw [hval]; omega)]
    rw [h1, h2]
  · have h1 : jsToLower c = c := by
      show Char.toLower c = c
      simp only [Char.toLower]
      rw [if_neg h]
    rw [h1, h1]

theorem map_jsToLower_isLower (x : List Char) : isLowerStr (x.map jsToLower) = true := by
  rw [isLowerStr, List.map_map]
  have hcongr : (x.map (jsToLower ∘ jsToLower)) = x.map jsToLower :=
    List.map_congr_left (fun a _ => jsToLower_idem a)
  rw [hcongr]
  exact beq_self_eq_true _



theorem scanRowsF_mem :
    ∀ (f : Nat) (s : List Char) (t : Track), t ∈ scanRowsF f s →
      t.title ≠ [] ∧ t.artist ≠ [] ∧
      isLowerStr t.title = true ∧ isLowerStr t.artist = true ∧
      t.artist ≠ "artist".toList ∧ t.title ≠ "song".toList := by
  intro f
  induction f with
  | zero => intro s t ht; simp [scanRowsF] at ht
  | succ f ih =>
    intro s t ht
    match s with
    | [] => simp [scanRowsF] at ht
    | c :: cs =>
      simp only [scanRowsF] at ht
      cases hrow : tryRowAt (c :: cs) with
      | none =>
        simp only [hrow] at ht
        exact ih cs t ht
      | some g =>
        obtain ⟨g1, g2, rest⟩ := g
        simp only [hrow] at ht
        by_cases hhdr : (jsTrim (stripTags g1)).map jsToLower = "artist".toList ∨
            (jsTrim (stripTags g2)).map jsToLower = "song".toList
        · rw [if_pos hhdr] at ht
          exact ih rest t ht
        · rw [if_neg hhdr] at ht
          by_cases hemp : (jsTrim (stripTags g1)).isEmpty = true ∨
              (jsTrim (stripTags g2)).isEmpty = true
          · rw [if_pos hemp] at ht
            exact ih rest t ht
          · rw [if_neg hemp] at ht
            rcases List.mem_cons.mp ht with hc | hc
            · subst hc
              push_neg at hhdr hemp
              refine ⟨?_, ?_, map_jsToLower_isLower _, map_jsToLower_isLower _, hhdr.1, hhdr.2⟩
              · show (jsTrim (stripTags g2)).map jsToLower ≠ []
                rw [Ne, List.map_eq_nil_iff]
                intro hnil
                exact hemp.2 (by rw [hnil]; rfl)
              · show (jsTrim (stripTags g1)).map jsToLower ≠ []
                rw [Ne, List.map_eq_nil_iff]
                intro hnil
                exact hemp.1 (by rw [hnil]; rfl)
            · exact ih rest t hc



theorem rdropWhile_head? {p : Char → Bool} (l : List Char) {c0 : Char}
    (h1 : l.head? = some c0) (h2 : p c0 = false) :
    (List.rdropWhile p l).head? = some c0 := by
  have hc0 : c0 ∈ l := by
    cases l with
    | nil => simp at h1
    | cons a as =>
      simp only [List.head?_cons, Option.some.injEq] at h1
      exact h1 ▸ List.mem_cons_self a as
  have hne : List.rdropWhile p l ≠ [] := by
    rw [Ne, List.rdropWhile_eq_nil_iff]
    intro hall
    have hpc := hall c0 hc0
    rw [h2] at hpc
    simp at hpc
  obtain ⟨t, ht⟩ := List.rdropWhile_prefix p (l := l)
  rw [← ht, List.head?_append] at h1
  cases hh : (List.rdropWhile p l).head? with
  | none => exact absurd (List.head?_eq_none_iff.mp hh) hne
  | some a =>
    rw [hh] at h1
    simpa using h1

theorem jsTrim_ne_nil_of_head {y : List Char} {c0 : Char}
    (h1 : y.head? = some c0) (h2 : jsWs c0 = false) : jsTrim y ≠ [] := by
  have hh := rdropWhile_head? (p := jsWs) y h1 h2
  show List.dropWhile jsWs (trimRight y) ≠ []
  rw [trimRight_eq_rdropWhile]
  cases hcons : List.rdropWhile jsWs y with
  | nil => rw [hcons] at hh; simp at hh
  | cons a z =>
    rw [hcons] at hh
    simp only [List.head?_cons, Option.some.injEq] at hh
    subst hh
    rw [List.dropWhile_cons_of_neg (by simp [h2])]
    simp

theorem jsTrim_trimRight (y : List Char) : jsTrim (trimRight y) = jsTrim y := by
  show trimLeft (trimRight (trimRight y)) = trimLeft (trimRight y)
  simp only [trimRight_eq_rdropWhile]
  rw [List.rdropWhile_idempotent]

theorem parseDashGo_props :
    ∀ (cs accRev : List Char) (c0 : Char) (t : Track),
      accRev.getLast? = some c0 → jsWs c0 = false →
      parseDashGo accRev cs = some t →
      t.artist ≠ [] ∧ isLowerStr t.artist = true ∧ isLowerStr t.title = true := by
  intro cs
  induction cs with
  | nil => intro accRev c0 t h1 h2 h3; simp [parseDashGo] at h3
  | cons c cs ih =>
    intro accRev c0 t h1 h2 h3
    have hlastc : (c :: accRev).getLast? = some c0 := by
      cases accRev with
      | nil => simp at h1
      | cons b l => rw [List.getLast?_cons_cons]; exact h1
    simp only [parseDashGo] at h3
    by_cases hd : isDashSep c = true
    · rw [if_pos hd] at h3
      cases hg : dashGroup2 cs with
      | some g2 =>
        rw [hg] at h3
        have ht := Option.some.inj h3
        subst ht
        refine ⟨?_, map_jsToLower_isLower _, map_jsToLower_isLower _⟩
        show (jsTrim (trimRight accRev.reverse)).map jsToLower ≠ []
        rw [Ne, List.map_eq_nil_iff, jsTrim_trimRight]
        have hhead : accRev.reverse.head? = some c0 := by
          rw [List.head?_reverse]
          exact h1
        exact jsTrim_ne_nil_of_head hhead h2
      | none =>
        rw [hg] at h3
        exact ih (c :: accRev) c0 t hlastc h2 h3
    · rw [if_neg hd] at h3
      exact ih (c :: accRev) c0 t hlastc h2 h3

theorem parseDashItem_props (x : List Char) (t : Track)
    (h : parseDashItem (jsTrim x) = some t) :
    t.artist ≠ [] ∧ isLowerStr t.artist = true ∧ isLowerStr t.title = true := by
  cases hitem : jsTrim x with
  | nil => rw [hitem] at h; simp [parseDashItem] at h
  | cons c0 cs0 =>
    rw [hitem] at h
    simp only [parseDashItem] at h
    have hhead : (jsTrim x).head? = some c0 := by rw [hitem]; rfl
    have hws : jsWs c0 = false := dropWhile_head?_not (trimRight x) hhead
    exact parseDashGo_props cs0 [c0] c0 t rfl hws h

theorem scanLisF_mem :
    ∀ (f : Nat) (s : List Char) (t : Track), t ∈ scanLisF f s →
      t.artist ≠ [] ∧ isLowerStr t.artist = true ∧ isLowerStr t.title = true := by
  intro f
  induction f with
  | zero => intro s t ht; simp [scanLisF] at ht
  | succ f ih =>
    intro s t ht
    match s with
    | [] => simp [scanLisF] at ht
    | c :: cs =>
      simp only [scanLisF] at ht
      cases hli : tryLiAt (c :: cs) with
      | none =>
        simp only [hli] at ht
        exact ih cs t ht
      | some g =>
        obtain ⟨content, rest⟩ := g
        simp only [hli] at ht
        cases hp : parseDashItem (jsTrim (stripTags content)) with
        | none =>
          simp only [hp] at ht
          exact ih rest t ht
        | some tr =>
          simp only [hp] at ht
          rcases List.mem_cons.mp ht with hc | hc
          · subst hc
            exact parseDashItem_props (stripTags content) t hp
          · exact ih rest t hc

/-- **C6** (counterexample): a fallback-parsed track can have an
*empty* title: the fallback pushes the captured pair without an
emptiness check, and for `<li>a - " "</li>` the optional surrounding
quotes of the title group absorb both quote characters, leaving a
whitespace-only capture that trims to the empty string. -/
theorem c6_counterexample :
    extractTracksFromHtml "<li>a - \" \"</li>".toList = [{ title := [], artist := ['a'] }] ∧
    ¬ (∀ t ∈ extractTracksFromHtml "<li>a - \" \"</li>".toList, t.title ≠ []) := by
  refine ⟨by decide, by decide⟩

/-- **C6** (amended): every track produced by the Track-List Extractor
has a non-empty artist and has both fields lower-cased; tracks produced
by the primary two-column strategy additionally have a non-empty title,
and a pair whose artist cell lower-cases to "artist" or whose song cell
lower-cases to "song" is skipped (so no emitted track carries those
header values).  A track produced by the fallback line-oriented
strategy, however, may have an empty title (see the counterexample). -/
theorem c6_track_fields (html : List Char) :
    (∀ t ∈ extractTracksFromHtml html,
      t.artist ≠ [] ∧ isLowerStr t.artist = true ∧ isLowerStr t.title = true) ∧
    (∀ t ∈ scanRowsF ((normalizeHtml html).length + 1) (normalizeHtml html),
      t.title ≠ [] ∧ t.artist ≠ "artist".toList ∧ t.title ≠ "song".toList) := by
  constructor
  · intro t ht
    by_cases hemp : (scanRowsF ((normalizeHtml html).length + 1) (normalizeHtml html)).isEmpty = true
    · rw [extractTracksFromHtml, if_pos hemp] at ht
      exact scanLisF_mem _ _ t ht
    · rw [extractTracksFromHtml, if_neg hemp] at ht
      obtain ⟨-, h2, h3, h4, -, -⟩ := scanRowsF_mem _ _ t ht
      exact ⟨h2, h4, h3⟩
  · intro t ht
    obtain ⟨h1, -, -, -, h5, h6⟩ := scanRowsF_mem _ _ t ht
    exact ⟨h1, h5, h6⟩


end Mixtape
